import Mathlib

/-!
# Verification of the Markdown-to-Excel converter core

A shallow embedding of the parsing and grid-placement core of the
MarkDownToExcelConverter repository, together with proofs settling the
frozen claims about its specification.

Lines and texts are modelled as `List Char` (the sources operate on JS
strings character by character).  Each definition mirrors one function of
`src/parser/markdown-parser.ts` or `src/writer/excel-writer.ts`; the doc
comment of a definition names the source function it embeds.
-/

/-- The whitespace characters relevant to indent scanning and to the
`trimStart` / regex-`\s` positions used by the parser: space and tab.
(The JS originals accept further Unicode whitespace; none of the claims
or inputs below involve it.) -/
def isWsChar (c : Char) : Bool :=
  c = ' ' || c = '\t'

/-- Width of the leading whitespace run of a line: a space counts 1, a tab
counts 4, scanning stops at the first other character.  Embeds the first
loop of `splitIndent` (markdown-parser.ts lines 156-166). -/
def leadingWidth : List Char → Nat
  | [] => 0
  | c :: rest =>
    if c = ' ' then 1 + leadingWidth rest
    else if c = '\t' then 4 + leadingWidth rest
    else 0

/-- The cut scan of `splitIndent` (markdown-parser.ts lines 181-206),
re-expressed relatively: given the accumulated width `w`, returns the
number of characters to drop from the front, or `none` when the loop
runs off the end of the line (in which case the source leaves
`cutIndex = 0`). -/
def findCut (target : Nat) : List Char → Nat → Option Nat
  | [], _ => none
  | c :: rest, w =>
    if target ≤ w then some 0
    else if c = ' ' then (findCut target rest (w + 1)).map Nat.succ
    else if c = '\t' then (findCut target rest (w + 4)).map Nat.succ
    else some 0

/-- Embeds `splitIndent` (markdown-parser.ts lines 152-212): the indent
level is `⌊width/4⌋`; the residual is the line with the scanned cut
dropped, the whole line when the target width is 0 or the cut scan runs
off the end of the line. -/
def splitIndent (line : List Char) : Nat × List Char :=
  let level := leadingWidth line / 4
  let target := level * 4
  if target = 0 then (level, line)
  else
    match findCut target line 0 with
    | some n => (level, line.drop n)
    | none => (level, line)

/-- Embeds JS `String.prototype.trimStart` restricted to the whitespace
characters occurring in this pipeline. -/
def trimStart (l : List Char) : List Char :=
  l.dropWhile isWsChar

/-- The scanning loop of `replaceAll`, structurally recursive on a fuel
bound: every step consumes at least one character, so fuel equal to the
input length can never run out before the input does. -/
def replaceAllFuel (p0 : Char) (prest rep : List Char) : Nat → List Char → List Char
  | 0, l => l
  | _ + 1, [] => []
  | fuel + 1, c :: rest =>
    if (p0 :: prest).isPrefixOf (c :: rest)
    then rep ++ replaceAllFuel p0 prest rep fuel (rest.drop prest.length)
    else c :: replaceAllFuel p0 prest rep fuel rest

/-- Global, left-to-right, non-overlapping replacement of the pattern
`p0 :: prest` by `rep`: the semantics of JS `replace(/pat/g, rep)` for a
literal pattern.  The pattern is passed with an exposed head so that it
is never empty. -/
def replaceAll (p0 : Char) (prest rep : List Char) (l : List Char) : List Char :=
  replaceAllFuel p0 prest rep l.length l

/-- Decimal digits of a natural number, as characters. -/
def natChars (n : Nat) : List Char :=
  (Nat.repr n).toList

/-- The line kinds assigned by the classifier (`LineType` in
src/types/index.ts). -/
inductive LineType where
  | header
  | paragraph
  | listItem
  | codeBlock
  | quote
  | horizontalRule
  | table
  | empty
deriving DecidableEq

/-- Embeds `FontStyle` (src/types/index.ts).  Every field is optional in
the source; `none` is an absent key.  The open index signature is never
populated by the converter, so the closed record is exact. -/
structure FontStyle where
  bold : Option Bool := none
  italic : Option Bool := none
  strike : Option Bool := none
  underline : Option Bool := none
  code : Option Bool := none
  name : Option (List Char) := none
  size : Option Nat := none
  color : Option (List Char) := none
deriving DecidableEq

/-- Embeds `RichTextSegment` (src/types/index.ts): `link` is the target
URL, `image` is the `(src, alt)` pair. -/
structure RichTextSegment where
  text : List Char
  font : Option FontStyle := none
  link : Option (List Char) := none
  image : Option (List Char × List Char) := none
deriving DecidableEq

/-- Embeds `FormatInfo` (src/types/index.ts). -/
structure FormatInfo where
  isQuote : Bool
  isHorizontalRule : Bool
  headerLevel : Nat
  backgroundColor : List Char
  fontSize : Nat
  leftBorderColor : List Char
  bottomBorderColor : List Char
deriving DecidableEq

/-- Embeds `DocumentLine` (src/types/index.ts). -/
structure DocumentLine where
  richText : List RichTextSegment
  plainText : List Char
  indentLevel : Nat
  lineType : LineType
  formatting : FormatInfo
  originalLine : List Char
deriving DecidableEq

/-- The metadata record built by `parseMarkdownFile` (markdown-parser.ts
lines 50-55).  `convertedAt` is the wall-clock reading
`new Date().toISOString()`, passed in explicitly here. -/
structure Metadata where
  fileName : List Char
  filePath : List Char
  convertedAt : List Char
  totalLines : Nat
deriving DecidableEq

/-- Embeds `Document` (src/types/index.ts). -/
structure Document where
  lines : List DocumentLine
  metadata : Metadata
deriving DecidableEq

/-! ## Configuration constants (src/config/index.ts, `defaultExcelConfig`) -/

def baseFontSize : Nat := 11
def fontName : List Char := "Meiryo".toList
def codeFontName : List Char := "Consolas".toList
def quoteBackgroundColor : List Char := "E8F4FD".toList
def quoteBorderColor : List Char := "4472C4".toList
def horizontalRuleColor : List Char := "D0D0D0".toList
def codeColor : List Char := "FF000080".toList
def inlineCodeColor : List Char := "FFA31515".toList
def linkColor : List Char := "FF0563C1".toList
def imageAltColor : List Char := "FF808080".toList

/-- Embeds the `headerFontSizes` table together with the
`headerFontSizes[headerLevel] || baseFontSize` fallback used by
`getHeaderFontSize` (markdown-parser.ts lines 629-632). -/
def getHeaderFontSize (headerLevel : Nat) : Nat :=
  if headerLevel = 1 then 18
  else if headerLevel = 2 then 16
  else if headerLevel = 3 then 14
  else if headerLevel = 4 then 12
  else if headerLevel = 5 then 11
  else if headerLevel = 6 then 10
  else baseFontSize

/-! ## Line classification -/

/-- Number of leading `#` characters when the line matches
`/^#{1,6}\s/`, and 0 otherwise; embeds `detectHeaderLevel`
(markdown-parser.ts lines 619-622) and the header test of
`determineLineType`. -/
def headerLevelOf (l : List Char) : Nat :=
  let n := (l.takeWhile (· = '#')).length
  if 1 ≤ n ∧ n ≤ 6 then
    match l.drop n with
    | c :: _ => if isWsChar c then n else 0
    | [] => 0
  else 0

/-- Whether the line matches the unordered marker `/^[-*+]\s/`. -/
def unorderedMatch (l : List Char) : Bool :=
  match l with
  | c :: d :: _ => (c = '-' || c = '*' || c = '+') && isWsChar d
  | _ => false

/-- Length of the prefix matched by `/^\d+\.\s/` (digits, dot, one
whitespace character), or `none` when the line does not match. -/
def orderedMatchLen (l : List Char) : Option Nat :=
  let k := (l.takeWhile Char.isDigit).length
  if k = 0 then none
  else
    match l.drop k with
    | '.' :: c :: _ => if isWsChar c then some (k + 2) else none
    | _ => none

/-- Whether the line matches `/^(-{3,}|\*{3,}|_{3,})$/`. -/
def isHorizontalRuleLine (l : List Char) : Bool :=
  decide (3 ≤ l.length) &&
    (l.all (· = '-') || l.all (· = '*') || l.all (fun c => c = '_'))

/-- Whether the line starts and ends with a pipe and contains at least
two pipes. -/
def isTableLine (l : List Char) : Bool :=
  l.head? = some '|' && l.getLast? = some '|' && decide (2 ≤ l.count '|')

/-- The triple-backtick fence delimiter. -/
def tripleBacktick : List Char := "```".toList

/-- Embeds `determineLineType` (markdown-parser.ts lines 224-267): the
classification of the whitespace-trimmed line, in the source's strict
precedence order. -/
def determineLineType (trimmedLine : List Char) (isInCodeBlock : Bool) : LineType :=
  if trimmedLine.length = 0 then .empty
  else if isInCodeBlock && !(tripleBacktick.isPrefixOf trimmedLine) then .paragraph
  else if 0 < headerLevelOf trimmedLine then .header
  else if unorderedMatch trimmedLine || (orderedMatchLen trimmedLine).isSome then .listItem
  else if tripleBacktick.isPrefixOf trimmedLine then .codeBlock
  else if ("> ".toList).isPrefixOf trimmedLine then .quote
  else if isHorizontalRuleLine trimmedLine then .horizontalRule
  else if isTableLine trimmedLine then .table
  else .paragraph

/-- Embeds `createDefaultFormatInfo` (markdown-parser.ts lines 638-648). -/
def createDefaultFormatInfo : FormatInfo :=
  { isQuote := false
    isHorizontalRule := false
    headerLevel := 0
    backgroundColor := []
    fontSize := baseFontSize
    leftBorderColor := []
    bottomBorderColor := [] }

/-- Embeds `analyzeFormatting` (markdown-parser.ts lines 275-305).  The
code-block branch of the source is an empty comment block and sets
nothing. -/
def analyzeFormatting (line : List Char) (lineType : LineType) : FormatInfo :=
  if lineType = .header then
    let lvl := headerLevelOf line
    { createDefaultFormatInfo with headerLevel := lvl, fontSize := getHeaderFontSize lvl }
  else if lineType = .quote then
    { createDefaultFormatInfo with
        isQuote := true
        backgroundColor := quoteBackgroundColor
        leftBorderColor := quoteBorderColor }
  else if lineType = .horizontalRule then
    { createDefaultFormatInfo with
        isHorizontalRule := true
        bottomBorderColor := horizontalRuleColor }
  else createDefaultFormatInfo

/-- Embeds `stripLinePrefix` (markdown-parser.ts lines 410-427): removes
the markup marker of the given line kind.  For a list item the source
chains the unordered replacement and then the ordered replacement. -/
def stripLineMarker (line : List Char) (lineType : LineType) : List Char :=
  match lineType with
  | .header =>
    let n := headerLevelOf line
    if 0 < n then line.drop (n + 1) else line
  | .listItem =>
    let l1 := if unorderedMatch line then line.drop 2 else line
    match orderedMatchLen l1 with
    | some k => l1.drop k
    | none => l1
  | .codeBlock => if tripleBacktick.isPrefixOf line then [] else line
  | .quote =>
    if ("> ".toList).isPrefixOf line then line.drop 2
    else if line.head? = some '>' then line.drop 1
    else line
  | _ => line

/-! ## Inline tokens and their conversion to rich-text runs -/

mutual

/-- The closed variant type for the tokens delivered by the third-party
inline tokenizer (`marked`'s `inlineTokens`), as consumed by
`convertTokensToSegments` (markdown-parser.ts lines 460-544): the fields
the converter reads from each token kind.  `other` stands for any
unrecognized kind, which may or may not carry a `text` field.  The
child sequences are a mutually inductive list so that the conversion
below is structurally recursive. -/
inductive Token where
  | text (s : List Char)
  | escape (s : List Char)
  | html (s : List Char)
  | strong (children : TokenList)
  | em (children : TokenList)
  | del (children : TokenList)
  | codeSpan (s : List Char)
  | link (href : List Char) (children : TokenList)
  | image (href : List Char) (altText : List Char)
  | other (text : Option (List Char))

inductive TokenList where
  | nil
  | cons (head : Token) (tail : TokenList)

end

/-- Embeds `decodeHtmlEntities` (markdown-parser.ts lines 552-559): the
five global replacements, applied in the source's order. -/
def decodeHtmlEntities (l : List Char) : List Char :=
  replaceAll '&' "quot;".toList "\"".toList
    (replaceAll '&' "gt;".toList ">".toList
      (replaceAll '&' "lt;".toList "<".toList
        (replaceAll '&' "amp;".toList "&".toList l)))
  |> replaceAll '&' "#39;".toList [Char.ofNat 39]

/-- Embeds `isSameFont` (markdown-parser.ts lines 592-612).  The source
compares the key sets and then each key's value; on the closed
`FontStyle` record with `none` for an absent key this is exactly
structural equality, and a present font is never equal to an absent
one. -/
def isSameFont : Option FontStyle → Option FontStyle → Bool
  | none, none => true
  | some f, some g => f = g
  | _, _ => false

/-- The inner loop of `mergeAdjacentSegments` (markdown-parser.ts lines
566-584): `prev` is the last element of the merged list; a segment with
the same font is folded into `prev`'s text (keeping `prev`'s font, link
and image), anything else starts a new group. -/
def mergeInto (prev : RichTextSegment) : List RichTextSegment → List RichTextSegment
  | [] => [prev]
  | curr :: rest =>
    if isSameFont prev.font curr.font
    then mergeInto { prev with text := prev.text ++ curr.text } rest
    else prev :: mergeInto curr rest

/-- Embeds `mergeAdjacentSegments` (markdown-parser.ts lines 566-584). -/
def mergeAdjacentSegments : List RichTextSegment → List RichTextSegment
  | [] => []
  | s :: rest => mergeInto s rest

mutual

/-- The `for` loop body sequence of `convertTokensToSegments` over a token sequence
(markdown-parser.ts lines 460-544). -/
def convertTokensLoop : TokenList → FontStyle → List RichTextSegment
  | .nil, _ => []
  | .cons t rest, f => convertOneToken t f ++ convertTokensLoop rest f

/-- One `switch` arm of `convertTokensToSegments`.  The child cases
re-enter the converter, merging their own results as the source's
recursive `convertTokensToSegments` call does on return. -/
def convertOneToken : Token → FontStyle → List RichTextSegment
  | .text s, f => [{ text := decodeHtmlEntities s, font := some f }]
  | .escape s, f => [{ text := decodeHtmlEntities s, font := some f }]
  | .html s, f => [{ text := decodeHtmlEntities s, font := some f }]
  | .strong children, f =>
    mergeAdjacentSegments (convertTokensLoop children { f with bold := some true })
  | .em children, f =>
    mergeAdjacentSegments (convertTokensLoop children { f with italic := some true })
  | .del children, f =>
    mergeAdjacentSegments (convertTokensLoop children { f with strike := some true })
  | .codeSpan s, f =>
    [{ text := decodeHtmlEntities s
       font := some { f with code := some true, color := some inlineCodeColor, name := some codeFontName } }]
  | .link href children, f =>
    (mergeAdjacentSegments (convertTokensLoop children
        { f with color := some linkColor, underline := some true })).map
      (fun seg => { seg with link := some href })
  | .image href altText, f =>
    [{ text := if altText = [] then "画像".toList else altText
       font := some { f with color := some imageAltColor }
       image := some (href, altText) }]
  | .other t, f =>
    match t with
    | some s => [{ text := decodeHtmlEntities s, font := some f }]
    | none => []

end

/-- Embeds `convertTokensToSegments` (markdown-parser.ts lines 460-544):
converts a token list under an inherited font and merges adjacent
same-font segments of the result (the source calls
`mergeAdjacentSegments` on every return, recursive calls included). -/
def convertTokensToSegments (tokens : TokenList) (currentFont : FontStyle) :
    List RichTextSegment :=
  mergeAdjacentSegments (convertTokensLoop tokens currentFont)

/-! ## Per-line rich text generation and the document pipeline -/

/-- A tokenizer: the external `inlineTokens` entry point of the
third-party `marked` lexer, abstracted as a function from the line
content to the token list (`parseInlineFormatting`, markdown-parser.ts
lines 435-444).  The pipeline below is parametric in it. -/
abbrev Tokenizer := List Char → TokenList

/-- Modelled from the spec: the third-party inline tokenizer is not part
of this repository's sources; §4.5 specifies that plain text (content
with no inline markup) is a leaf production emitted as a single
plain-text token.  This tokenizer realizes exactly that behaviour and is
used only on markup-free concrete inputs. -/
def plainTextTokenizer : Tokenizer := fun s => TokenList.cons (Token.text s) TokenList.nil

/-- The fixed horizontal-rule cell text of `generateRichTextSegments`
(markdown-parser.ts line 327): thirty dashes. -/
def hrDashes : List Char := "------------------------------".toList

/-- The line-level overlay applied to every segment of a line
(markdown-parser.ts lines 345-359): `{...segment.font}` (an absent font
spreads to the empty record), then the line's font size when non-zero,
bold for headers, and the code colour and font for code-block context. -/
def applyLineFormatting (seg : RichTextSegment) (lineType : LineType)
    (formatting : FormatInfo) (isInCodeBlock : Bool) : RichTextSegment :=
  let f0 := seg.font.getD {}
  let f1 := if formatting.fontSize ≠ 0 then { f0 with size := some formatting.fontSize } else f0
  let f2 := if 0 < formatting.headerLevel then { f1 with bold := some true } else f1
  let f3 :=
    if lineType = .codeBlock ∨ (isInCodeBlock ∧ lineType = .paragraph)
    then { f2 with color := some codeColor, name := some codeFontName }
    else f2
  { seg with font := some f3 }

/-- Embeds `generateRichTextSegments` (markdown-parser.ts lines
315-360). -/
def generateRichTextSegments (tok : Tokenizer) (line : List Char) (lineType : LineType)
    (formatting : FormatInfo) (isInCodeBlock : Bool) : List RichTextSegment :=
  let content := if lineType ≠ .listItem then stripLineMarker line lineType else line
  if lineType = .horizontalRule then [{ text := hrDashes }]
  else if lineType = .table then [{ text := "表：".toList ++ content }]
  else if lineType = .empty then [{ text := [] }]
  else
    let finalContent := if lineType = .quote then "引用：".toList ++ content else content
    let segments := convertTokensToSegments (tok finalContent) {}
    segments.map (fun seg => applyLineFormatting seg lineType formatting isInCodeBlock)

/-- The ordered-marker removal `line.replace(/^\d+\.\s/, '')`. -/
def dropOrderedMarker (l : List Char) : List Char :=
  match orderedMatchLen l with
  | some k => l.drop k
  | none => l

/-- Embeds `determineRichTextSegments` (markdown-parser.ts lines
371-402): substitutes the rendered list marker, short-circuits
fence-interior content lines into a single unformatted monospace run,
and otherwise delegates to `generateRichTextSegments`. -/
def determineRichTextSegments (tok : Tokenizer) (line : List Char) (lineType : LineType)
    (formatting : FormatInfo) (isInCodeBlock : Bool) (listNumber : Nat) :
    List RichTextSegment :=
  let processedLine :=
    if lineType = .listItem ∧ unorderedMatch line then "・ ".toList ++ line.drop 2
    else if lineType = .listItem ∧ 0 < listNumber then
      natChars listNumber ++ ". ".toList ++ dropOrderedMarker line
    else line
  if isInCodeBlock ∧ lineType = .paragraph then
    [{ text := stripLineMarker processedLine .paragraph
       font := some { color := some codeColor, name := some codeFontName } }]
  else generateRichTextSegments tok processedLine lineType formatting isInCodeBlock

/-- The per-level ordered-list counters (`listCounter`,
`Record<number, number>`), as an association list. -/
def lookupCounter (counter : List (Nat × Nat)) (lvl : Nat) : Nat :=
  ((counter.find? (fun p => p.1 = lvl)).map (fun p => p.2)).getD 0

/-- `listCounter[indentLevel] = v`. -/
def counterSet : List (Nat × Nat) → Nat → Nat → List (Nat × Nat)
  | [], lvl, v => [(lvl, v)]
  | (k, x) :: rest, lvl, v =>
    if k = lvl then (k, v) :: rest else (k, x) :: counterSet rest lvl v

/-- Embeds `parseLine` (markdown-parser.ts lines 103-145).  Returns the
produced `DocumentLine` together with the updated list counters (the
source mutates the shared `listCounter` object). -/
def parseLine (tok : Tokenizer) (line : List Char) (indentLevel : Nat)
    (indentStrippedLine : List Char) (isInCodeBlock : Bool)
    (listCounter : List (Nat × Nat)) : DocumentLine × List (Nat × Nat) :=
  let trimmedLine := trimStart line
  let lineType := determineLineType trimmedLine isInCodeBlock
  let formatting := analyzeFormatting trimmedLine lineType
  let ordered := lineType = .listItem ∧ (orderedMatchLen trimmedLine).isSome
  let listNumber := if ordered then lookupCounter listCounter indentLevel + 1 else 0
  let counter1 :=
    if ordered then counterSet listCounter indentLevel (lookupCounter listCounter indentLevel + 1)
    else listCounter
  let contentForRichText :=
    if lineType = .paragraph ∨ (isInCodeBlock ∧ lineType ≠ .codeBlock)
    then indentStrippedLine else trimmedLine
  let richText := determineRichTextSegments tok contentForRichText lineType formatting
    isInCodeBlock listNumber
  let plainText := (richText.map (fun seg => seg.text)).flatten
  ({ richText := richText
     plainText := plainText
     indentLevel := indentLevel
     lineType := lineType
     formatting := formatting
     originalLine := line }, counter1)

/-- The order-dependent state threaded through the line loop of
`parseMarkdownFile` (markdown-parser.ts lines 25-45): the code-fence
flag and the ordered-list counters. -/
structure ParserState where
  inCode : Bool
  counter : List (Nat × Nat)
deriving DecidableEq

/-- The fence toggle of `parseMarkdownFile` (markdown-parser.ts lines
33-35): flip the flag when the trimmed line starts with a triple
backtick, before the line is classified. -/
def fenceToggle (inCode : Bool) (line : List Char) : Bool :=
  if tripleBacktick.isPrefixOf (trimStart line) then !inCode else inCode

/-- One iteration of the `lines.map` body of `parseMarkdownFile`
(markdown-parser.ts lines 28-45): toggle the fence flag on a
triple-backtick start (before classifying), parse the line, and reset
the whole counter mapping when the produced line is not a list item. -/
def processStep (tok : Tokenizer) (st : ParserState) (line : List Char) :
    DocumentLine × ParserState :=
  let split := splitIndent line
  let inCode1 := fenceToggle st.inCode line
  let parsed := parseLine tok line split.1 split.2 inCode1 st.counter
  let counter2 := if parsed.1.lineType ≠ .listItem then [] else parsed.2
  (parsed.1, ⟨inCode1, counter2⟩)

/-- The full line loop of `parseMarkdownFile`. -/
def processLines (tok : Tokenizer) : List (List Char) → ParserState → List DocumentLine
  | [], _ => []
  | l :: rest, st =>
    (processStep tok st l).1 :: processLines tok rest (processStep tok st l).2

/-- The parser state after the line loop. -/
def finalParserState (tok : Tokenizer) : List (List Char) → ParserState → ParserState
  | [], st => st
  | l :: rest, st => finalParserState tok rest (processStep tok st l).2

/-- Embeds `normalizeAndSplitLines` (markdown-parser.ts lines 67-76):
CRLF to LF, lone CR to LF, then split on LF. -/
def normalizeAndSplitLines (content : List Char) : List (List Char) :=
  let step1 := replaceAll '\r' "\n".toList "\n".toList content
  let step2 := replaceAll '\r' [] "\n".toList step1
  splitOnLF step2
where
  /-- JS `split('\n')`: the empty string yields one empty line, a
  trailing LF yields a trailing empty line. -/
  splitOnLF : List Char → List (List Char)
    | [] => [[]]
    | c :: rest =>
      let r := splitOnLF rest
      if c = '\n' then [] :: r
      else
        match r with
        | [] => [[c]]
        | h :: t => (c :: h) :: t

/-- `path.basename`: the part of the path after the last separator. -/
def basename (p : List Char) : List Char :=
  p.foldl (fun acc c => if c = '/' then [] else acc ++ [c]) []

/-- Embeds the pure core of `parseMarkdownFile` (markdown-parser.ts
lines 12-59): the file content is already read (the existence check and
read error belong to the external file collaborator), and the
`new Date().toISOString()` reading is the explicit `convertedAt`
argument. -/
def parseMarkdownContent (tok : Tokenizer) (content : List Char)
    (filePath : List Char) (convertedAt : List Char) : Document :=
  let lines := normalizeAndSplitLines content
  { lines := processLines tok lines ⟨false, []⟩
    metadata :=
      { fileName := basename filePath
        filePath := filePath
        convertedAt := convertedAt
        totalLines := lines.length } }

/-! ## Excel writer (src/writer/excel-writer.ts) -/

/-- Embeds the ExcelJS font record populated by `convertToExcelFont`. -/
structure ExcelFont where
  bold : Option Bool := none
  italic : Option Bool := none
  strike : Option Bool := none
  underline : Option Bool := none
  size : Option Nat := none
  name : Option (List Char) := none
  color : Option (List Char) := none
deriving DecidableEq

/-- An ExcelJS rich-text run as produced by `convertToExcelRichText`. -/
structure ExcelRichText where
  text : List Char
  font : Option ExcelFont := none
deriving DecidableEq

/-- Embeds `convertToExcelFont` (excel-writer.ts lines 222-254): each
field is copied when truthy (`some true` for the flags, a non-zero size,
any present name or colour — the converter never produces an empty
name or colour string). -/
def convertToExcelFont (style : FontStyle) : ExcelFont :=
  { bold := if style.bold = some true then some true else none
    italic := if style.italic = some true then some true else none
    strike := if style.strike = some true then some true else none
    underline := if style.underline = some true then some true else none
    size := match style.size with
      | some n => if n ≠ 0 then some n else none
      | none => none
    name := style.name
    color := style.color }

/-- The per-segment loop of `convertToExcelRichText` (excel-writer.ts
lines 190-212), threading the function-local `targetToIndex` map and
`linkCounter`.  A segment whose link target is present and non-empty
(the source tests the string's truthiness) gets a fresh or cached number
and the trailing ` [n]` marker. -/
def convertLoop : List RichTextSegment → List (List Char × Nat) → Nat → List ExcelRichText
  | [], _, _ => []
  | seg :: rest, tbl, counter =>
    let fontOut := seg.font.map convertToExcelFont
    match seg.link with
    | some target =>
      if target = [] then
        { text := seg.text, font := fontOut } :: convertLoop rest tbl counter
      else
        match (tbl.find? (fun p => p.1 = target)).map (fun p => p.2) with
        | some n =>
          { text := seg.text ++ " [".toList ++ natChars n ++ "]".toList, font := fontOut }
            :: convertLoop rest tbl counter
        | none =>
          { text := seg.text ++ " [".toList ++ natChars (counter + 1) ++ "]".toList
            font := fontOut }
            :: convertLoop rest (tbl ++ [(target, counter + 1)]) (counter + 1)
    | none => { text := seg.text, font := fontOut } :: convertLoop rest tbl counter

/-- Embeds `convertToExcelRichText` (excel-writer.ts lines 185-215).
The `targetToIndex` map and `linkCounter` are local to each call, i.e.
to each single line written by `writeLineToWorksheet`. -/
def convertToExcelRichText (segments : List RichTextSegment) : List ExcelRichText :=
  convertLoop segments [] 0

/-- Embeds `collectAllLinks` (excel-writer.ts lines 145-159): the
distinct non-empty link targets of the whole document, in first
occurrence order. -/
def collectAllLinks (document : Document) : List (List Char) :=
  document.lines.foldl
    (fun acc line =>
      line.richText.foldl
        (fun acc seg =>
          match seg.link with
          | some target =>
            if target ≠ [] ∧ ¬ acc.contains target then acc ++ [target] else acc
          | none => acc)
        acc)
    []

/-- The appendix rows written after the content (excel-writer.ts lines
55-71): one cell text `[n] url` per collected link, numbered from 1 in
list order. -/
def appendixCellTexts (links : List (List Char)) : List (List Char) :=
  links.enum.map (fun p => "[".toList ++ natChars (p.1 + 1) ++ "] ".toList ++ p.2)

/-- The 1-based grid coordinates assigned by `writeLineToWorksheet`
(excel-writer.ts lines 99-107): row = position + 1, column =
`indentLevel * indentColumnOffset + 1`. -/
def gridCoordinates (indentColumnOffset : Nat) (position : Nat) (line : DocumentLine) :
    Nat × Nat :=
  (position + 1, line.indentLevel * indentColumnOffset + 1)

/-- `path.parse(name).name`: the file name with its last extension
removed (a dot at position 0 does not start an extension). -/
def fileStem (name : List Char) : List Char :=
  match ((List.range name.length).filter
      (fun i => name.getD i ' ' = '.' ∧ 0 < i)).getLast? with
  | some i => name.take i
  | none => name

/-- JS `slice(-n)`: the last `n` characters (the whole list when it is
shorter). -/
def lastSlice (n : Nat) (l : List Char) : List Char :=
  l.drop (l.length - n)

/-- Embeds the sheet-name computation of `writeExcel` (excel-writer.ts
lines 27-29): `MD_` + the file stem (defaulting to `document` for an
empty name) + `_` + the last four digits of the current epoch-millisecond
reading, truncated to 31 characters.  No other input enters the name. -/
def codeSheetName (fileName : List Char) (timeMs : Nat) : List Char :=
  let base := if fileName = [] then "document".toList else fileName
  (("MD_".toList ++ fileStem base) ++ ("_".toList ++ lastSlice 4 (natChars timeMs))).take 31

/-- Modelled from the spec: §4.6's claimed sheet-naming scheme, stated
for comparison with `codeSheetName` — use the requested name when free,
otherwise ` (k)` for the smallest unused k in 1..100, otherwise suffix
the current time value. -/
def specSheetName (existing : List (List Char)) (requested : List Char) (timeMs : Nat) :
    List Char :=
  if ¬ existing.contains requested then requested
  else
    match (((List.range 100).map (· + 1)).find?
        (fun k => ¬ existing.contains (requested ++ " (".toList ++ natChars k ++ ")".toList))) with
    | some k => requested ++ " (".toList ++ natChars k ++ ")".toList
    | none => requested ++ natChars timeMs

/-! ## Helper definitions for the statements -/

/-- Shorthand: the character list of a string literal. -/
def chars (x : String) : List Char := x.toList

/-- A placeholder line for `List.getD`. -/
def defaultDocumentLine : DocumentLine :=
  { richText := [], plainText := [], indentLevel := 0, lineType := .empty
    formatting := createDefaultFormatInfo, originalLine := [] }

/-- The width contributed by one character of an indent prefix. -/
def charWidth (c : Char) : Nat :=
  if c = ' ' then 1 else if c = '\t' then 4 else 0

/-- Total width of a character list under `charWidth`. -/
def widthSum (l : List Char) : Nat :=
  (l.map charWidth).sum

/-- The number of characters `splitIndent` removes, characterized
directly: the least position whose prefix width reaches the target
width `4·⌊width/4⌋`, and 0 when the target is 0 or no position inside
the line reaches it. -/
def cutChars (l : List Char) : Nat :=
  let target := (leadingWidth l / 4) * 4
  if target = 0 then 0
  else
    match (List.range l.length).find? (fun n => decide (target ≤ widthSum (l.take n))) with
    | some n => n
    | none => 0

/-- Adjacent elements of the list never carry `isSameFont`-equal fonts:
the output shape of left-to-right maximal merging. -/
def fontsSeparated : List RichTextSegment → Prop
  | a :: b :: rest => isSameFont a.font b.font = false ∧ fontsSeparated (b :: rest)
  | _ => True

/-! ## Helper lemmas -/

/-- The cut scan only ever steps over indent whitespace. -/
theorem findCut_take_ws (target : Nat) :
    ∀ (l : List Char) (w n : Nat), findCut target l w = some n →
      ∀ c ∈ l.take n, isWsChar c = true := by
  intro l
  induction l with
  | nil => intro w n h; simp [findCut] at h
  | cons c rest ih =>
    intro w n h
    rw [findCut] at h
    by_cases hw : target ≤ w
    · rw [if_pos hw] at h
      cases h
      simp
    · rw [if_neg hw] at h
      by_cases hsp : c = ' '
      · rw [if_pos hsp] at h
        match hm : findCut target rest (w + 1) with
        | none => rw [hm] at h; exact Option.noConfusion h
        | some m =>
          rw [hm] at h
          simp only [Option.map_some, Option.map_some'] at h
          cases h
          intro d hd
          rw [List.take_succ_cons] at hd
          rcases List.mem_cons.mp hd with h1 | h2
          · subst h1; simp [isWsChar, hsp]
          · exact ih (w + 1) m hm d h2
      · rw [if_neg hsp] at h
        by_cases htb : c = '\t'
        · rw [if_pos htb] at h
          match hm : findCut target rest (w + 4) with
          | none => rw [hm] at h; exact Option.noConfusion h
          | some m =>
            rw [hm] at h
            simp only [Option.map_some, Option.map_some'] at h
            cases h
            intro d hd
            rw [List.take_succ_cons] at hd
            rcases List.mem_cons.mp hd with h1 | h2
            · subst h1; simp [isWsChar, htb]
            · exact ih (w + 4) m hm d h2
        · rw [if_neg htb] at h
          cases h
          simp

theorem widthSum_cons (c : Char) (l : List Char) :
    widthSum (c :: l) = charWidth c + widthSum l := by
  simp [widthSum]

/-- The cut scan agrees with the direct characterization: the first
position whose accumulated width reaches the target, provided the
leading whitespace of the remaining line can still supply the target
width (which holds at the initial call, where the target is at most the
full leading width). -/
theorem findCut_eq_find (target : Nat) :
    ∀ (l : List Char) (w : Nat), target ≤ w + leadingWidth l →
      findCut target l w =
        (List.range l.length).find? (fun n => decide (target ≤ w + widthSum (l.take n))) := by
  intro l
  induction l with
  | nil => intro w _; simp [findCut]
  | cons c rest ih =>
    intro w hbound
    rw [findCut]
    rw [List.length_cons, List.range_succ_eq_map]
    by_cases hw : target ≤ w
    · rw [if_pos hw, List.find?_cons_of_pos]
      simp [widthSum, hw]
    · rw [if_neg hw, List.find?_cons_of_neg _ (by simp [widthSum, hw])]
      rw [List.find?_map]
      by_cases hsp : c = ' '
      · rw [if_pos hsp]
        have hb1 : target ≤ (w + 1) + leadingWidth rest := by
          rw [leadingWidth, if_pos hsp] at hbound
          omega
        have hp : ((fun n => decide (target ≤ w + widthSum (List.take n (c :: rest)))) ∘
            Nat.succ) = fun n => decide (target ≤ (w + 1) + widthSum (List.take n rest)) := by
          funext n
          simp only [Function.comp_apply, Nat.succ_eq_add_one, List.take_succ_cons,
            widthSum_cons]
          exact decide_eq_decide.mpr (by rw [charWidth, if_pos hsp]; omega)
        rw [hp, ih (w + 1) hb1]
      · rw [if_neg hsp]
        by_cases htb : c = '\t'
        · rw [if_pos htb]
          have hb4 : target ≤ (w + 4) + leadingWidth rest := by
            rw [leadingWidth, if_neg hsp, if_pos htb] at hbound
            omega
          have hp : ((fun n => decide (target ≤ w + widthSum (List.take n (c :: rest)))) ∘
              Nat.succ) = fun n => decide (target ≤ (w + 4) + widthSum (List.take n rest)) := by
            funext n
            simp only [Function.comp_apply, Nat.succ_eq_add_one, List.take_succ_cons,
              widthSum_cons]
            exact decide_eq_decide.mpr (by rw [charWidth, if_neg hsp, if_pos htb]; omega)
          rw [hp, ih (w + 4) hb4]
        · exact absurd hbound
            (by rw [leadingWidth, if_neg hsp, if_neg htb]; omega)

/-- The residual of `splitIndent` equals the line with `cutChars` many
characters dropped. -/
theorem splitIndent_snd_eq_drop_cutChars (l : List Char) :
    (splitIndent l).2 = l.drop (cutChars l) := by
  rw [splitIndent, cutChars]
  by_cases h0 : leadingWidth l / 4 * 4 = 0
  · rw [if_pos h0, if_pos h0]
    simp
  · rw [if_neg h0, if_neg h0]
    have hbound : leadingWidth l / 4 * 4 ≤ 0 + leadingWidth l := by
      have := Nat.div_mul_le_self (leadingWidth l) 4
      omega
    rw [findCut_eq_find _ l 0 hbound]
    have hp : (fun n => decide (leadingWidth l / 4 * 4 ≤ 0 + widthSum (List.take n l))) =
        fun n => decide (leadingWidth l / 4 * 4 ≤ widthSum (List.take n l)) := by
      funext n
      exact decide_eq_decide.mpr (by omega)
    rw [hp]
    match (List.range l.length).find?
        (fun n => decide (leadingWidth l / 4 * 4 ≤ widthSum (List.take n l))) with
    | some n => rfl
    | none => simp

/-- The characters stepped over by the cut scan are all indent
whitespace, so trimming from the original line and trimming from the
residual agree. -/
theorem trimStart_eq_of_take_ws (l : List Char) :
    ∀ n, (∀ c ∈ l.take n, isWsChar c = true) →
      trimStart l = trimStart (l.drop n) := by
  induction l with
  | nil => intro n _; simp [trimStart]
  | cons c rest ih =>
    intro n hws
    match n with
    | 0 => rfl
    | Nat.succ m =>
      have hc : isWsChar c = true := hws c (by simp)
      rw [List.drop_succ_cons, trimStart, List.dropWhile_cons_of_pos hc]
      exact ih m (fun d hd => hws d (by rw [List.take_succ_cons]; exact List.mem_cons_of_mem c hd))

/-- A line whose indent-stripped residual starts with the fence
delimiter also starts with it after `trimStart` — the toggle condition
of `parseMarkdownFile` fires. -/
theorem trimStart_fence_of_residual (line : List Char)
    (h : tripleBacktick.isPrefixOf (splitIndent line).2 = true) :
    tripleBacktick.isPrefixOf (trimStart line) = true := by
  have hdrop : (splitIndent line).2 = line.drop (cutChars line) :=
    splitIndent_snd_eq_drop_cutChars line
  have hws : ∀ c ∈ line.take (cutChars line), isWsChar c = true := by
    rw [cutChars]
    by_cases h0 : leadingWidth line / 4 * 4 = 0
    · rw [if_pos h0]
      simp
    · rw [if_neg h0]
      have hbound : leadingWidth line / 4 * 4 ≤ 0 + leadingWidth line := by
        have := Nat.div_mul_le_self (leadingWidth line) 4
        omega
      match hm : findCut (leadingWidth line / 4 * 4) line 0 with
      | some n =>
        rw [findCut_eq_find _ line 0 hbound] at hm
        have hp : (fun n => decide (leadingWidth line / 4 * 4 ≤ 0 + widthSum (List.take n line))) =
            fun n => decide (leadingWidth line / 4 * 4 ≤ widthSum (List.take n line)) := by
          funext n
          exact decide_eq_decide.mpr (by omega)
        rw [hp] at hm
        rw [hm]
        have hm2 : findCut (leadingWidth line / 4 * 4) line 0 = some n := by
          rw [findCut_eq_find _ line 0 hbound, hp, hm]
        exact findCut_take_ws _ line 0 n hm2
      | none =>
        rw [findCut_eq_find _ line 0 hbound] at hm
        have hp : (fun n => decide (leadingWidth line / 4 * 4 ≤ 0 + widthSum (List.take n line))) =
            fun n => decide (leadingWidth line / 4 * 4 ≤ widthSum (List.take n line)) := by
          funext n
          exact decide_eq_decide.mpr (by omega)
        rw [hp] at hm
        rw [hm]
        simp
  rw [hdrop] at h
  have htrim : trimStart line = trimStart (line.drop (cutChars line)) :=
    trimStart_eq_of_take_ws line (cutChars line) hws
  rw [htrim]
  match hres : line.drop (cutChars line) with
  | [] => rw [hres] at h; exact absurd h (by simp [tripleBacktick, List.isPrefixOf])
  | c :: rest =>
    rw [hres] at h
    have hc : c = '`' := by
      have h2 := h
      simp [tripleBacktick, List.isPrefixOf] at h2
      exact h2.1.symm
    rw [trimStart, List.dropWhile_cons_of_neg (by rw [hc]; decide)]
    exact h

/-- Merging never changes the concatenated text. -/
theorem mergeInto_text_flatten :
    ∀ (rest : List RichTextSegment) (prev : RichTextSegment),
      ((mergeInto prev rest).map (fun seg => seg.text)).flatten =
        prev.text ++ ((rest.map (fun seg => seg.text)).flatten) := by
  intro rest
  induction rest with
  | nil => intro prev; simp [mergeInto]
  | cons curr tail ih =>
    intro prev
    rw [mergeInto]
    by_cases hsame : isSameFont prev.font curr.font = true
    · rw [if_pos hsame, ih]
      simp
    · rw [if_neg hsame]
      simp only [List.map_cons, List.flatten_cons]
      rw [ih]

/-- The first segment of a merge group keeps the group's font. -/
theorem mergeInto_head_font :
    ∀ (rest : List RichTextSegment) (prev : RichTextSegment),
      ∃ h tl, mergeInto prev rest = h :: tl ∧ h.font = prev.font := by
  intro rest
  induction rest with
  | nil => intro prev; exact ⟨prev, [], rfl, rfl⟩
  | cons curr tail ih =>
    intro prev
    rw [mergeInto]
    by_cases hsame : isSameFont prev.font curr.font = true
    · rw [if_pos hsame]
      obtain ⟨h, tl, heq, hfont⟩ := ih { prev with text := prev.text ++ curr.text }
      exact ⟨h, tl, heq, hfont⟩
    · rw [if_neg hsame]
      obtain ⟨h, tl, heq, _⟩ := ih curr
      exact ⟨prev, mergeInto curr tail, rfl, rfl⟩

/-- The output of merging never has two adjacent segments with the same
font. -/
theorem mergeInto_fontsSeparated :
    ∀ (rest : List RichTextSegment) (prev : RichTextSegment),
      fontsSeparated (mergeInto prev rest) := by
  intro rest
  induction rest with
  | nil => intro prev; rw [mergeInto]; trivial
  | cons curr tail ih =>
    intro prev
    rw [mergeInto]
    by_cases hsame : isSameFont prev.font curr.font = true
    · rw [if_pos hsame]
      exact ih _
    · rw [if_neg hsame]
      obtain ⟨h, tl, heq, hfont⟩ := mergeInto_head_font tail curr
      rw [heq]
      have htail : fontsSeparated (h :: tl) := heq ▸ ih curr
      exact ⟨by rw [hfont]; exact Bool.not_eq_true _ ▸ (by simpa using hsame), htail⟩

/-- Updating the counter map sets the looked-up value. -/
theorem lookupCounter_counterSet (cnt : List (Nat × Nat)) (lvl v : Nat) :
    lookupCounter (counterSet cnt lvl v) lvl = v := by
  induction cnt with
  | nil => simp [counterSet, lookupCounter, List.find?]
  | cons p rest ih =>
    rw [counterSet]
    by_cases hk : p.1 = lvl
    · rw [if_pos hk]
      simp [lookupCounter, List.find?, hk]
    · rw [if_neg hk]
      simp only [lookupCounter, List.find?] at ih ⊢
      rw [show (decide (p.1 = lvl)) = false from decide_eq_false hk]
      exact ih

/-- Every line produced by the loop satisfies the derived-plain-text
invariant: `parseLine` computes `plainText` as the concatenation of the
run texts. -/
theorem processLines_plainText (tok : Tokenizer) :
    ∀ (ls : List (List Char)) (st : ParserState) (dl : DocumentLine),
      dl ∈ processLines tok ls st →
        dl.plainText = ((dl.richText.map (fun seg => seg.text)).flatten) := by
  intro ls
  induction ls with
  | nil => intro st dl h; exact absurd h (by simp [processLines])
  | cons l rest ih =>
    intro st dl h
    rw [processLines] at h
    rcases List.mem_cons.mp h with h1 | h2
    · subst h1
      rfl
    · exact ih _ dl h2

/-- The loop produces exactly one document line per input line. -/
theorem processLines_length (tok : Tokenizer) :
    ∀ (ls : List (List Char)) (st : ParserState),
      (processLines tok ls st).length = ls.length := by
  intro ls
  induction ls with
  | nil => intro st; rfl
  | cons l rest ih => intro st; simp [processLines, ih]

theorem splitIndent_fst (l : List Char) : (splitIndent l).1 = leadingWidth l / 4 := by
  rw [splitIndent]
  split
  · rfl
  · split <;> rfl

/-! ## Claims -/

/-- C1: for every input text and every DocumentLine produced by the
parser, the line's `plainText` equals the left-to-right concatenation of
the texts of the runs in its `richText`. -/
theorem C1_plainText_is_run_concat (tok : Tokenizer)
    (content filePath convertedAt : List Char) (dl : DocumentLine)
    (h : dl ∈ (parseMarkdownContent tok content filePath convertedAt).lines) :
    dl.plainText = (dl.richText.map (fun seg => seg.text)).flatten :=
  processLines_plainText tok (normalizeAndSplitLines content) ⟨false, []⟩ dl h

theorem C1_plainText_is_run_concat_witness :
    (⟨[{ text := [] }], [], 0, .empty, createDefaultFormatInfo, []⟩ : DocumentLine)
        ∈ (parseMarkdownContent plainTextTokenizer [] [] []).lines
      ∧ (⟨[{ text := [] }], [], 0, .empty, createDefaultFormatInfo, []⟩ : DocumentLine).plainText
        = ((⟨[{ text := [] }], [], 0, .empty, createDefaultFormatInfo,
            []⟩ : DocumentLine).richText.map (fun seg => seg.text)).flatten :=
  ⟨by decide, C1_plainText_is_run_concat plainTextTokenizer [] [] [] _ (by decide)⟩

/-- The two-line document with one distinct link per line used to
evaluate the writer's numbering. -/
def lineC2a : DocumentLine :=
  { richText := [{ text := chars "a", link := some (chars "http://a") }]
    plainText := chars "a", indentLevel := 0, lineType := .paragraph
    formatting := createDefaultFormatInfo, originalLine := chars "a" }

def lineC2b : DocumentLine :=
  { richText := [{ text := chars "b", link := some (chars "http://b") }]
    plainText := chars "b", indentLevel := 0, lineType := .paragraph
    formatting := createDefaultFormatInfo, originalLine := chars "b" }

def docC2 : Document :=
  ⟨[lineC2a, lineC2b], ⟨chars "t.md", chars "t.md", chars "T", 2⟩⟩

/-- C2: evaluation of the writer at the failing input.  The appendix
numbers the document's distinct targets 1 and 2 in document order, but
the rendered body text of the second line annotates its link with
` [1]`, because `convertToExcelRichText` numbers links with a counter
local to each line, not with the document-wide appendix number. -/
theorem C2_inline_marker_is_per_line :
    collectAllLinks docC2 = [chars "http://a", chars "http://b"]
      ∧ appendixCellTexts (collectAllLinks docC2)
          = [chars "[1] http://a", chars "[2] http://b"]
      ∧ (convertToExcelRichText lineC2a.richText).map (fun rt => rt.text)
          = [chars "a [1]"]
      ∧ (convertToExcelRichText lineC2b.richText).map (fun rt => rt.text)
          = [chars "b [1]"] := by
  decide

/-- The font shared by the two adjacent link runs below. -/
def linkFontC3 : FontStyle := { underline := some true, color := some linkColor }

def segC3a : RichTextSegment :=
  { text := chars "a", font := some linkFontC3, link := some (chars "http://x") }

def segC3b : RichTextSegment :=
  { text := chars "b", font := some linkFontC3, link := some (chars "http://y") }

/-- C3 counterexample: two adjacent runs with identical fonts but
different link targets are merged into one run (of length 1, keeping the
left target), although the claim requires that runs differing in their
link descriptors must not be merged. -/
theorem C3_counterexample_links_merged :
    (mergeAdjacentSegments [segC3a, segC3b]).length = 1
      ∧ segC3a.link ≠ segC3b.link
      ∧ isSameFont segC3a.font segC3b.font = true := by
  decide

/-- C3 (amended): adjacent runs are concatenated left to right exactly
when their `font` records are structurally identical — the link and
image descriptors are not part of the equality, and a merged group keeps
the first run's link and image.  Merging preserves the concatenated text
and leaves no two adjacent runs with the same font. -/
theorem C3_merge_compares_font_only (segs : List RichTextSegment) :
    ((mergeAdjacentSegments segs).map (fun seg => seg.text)).flatten
        = (segs.map (fun seg => seg.text)).flatten
      ∧ fontsSeparated (mergeAdjacentSegments segs)
      ∧ mergeAdjacentSegments [segC3a, segC3b]
          = [{ text := chars "ab", font := some linkFontC3, link := some (chars "http://x") }] := by
  refine ⟨?_, ?_, by decide⟩
  · cases segs with
    | nil => rfl
    | cons s rest => exact mergeInto_text_flatten rest s
  · cases segs with
    | nil => trivial
    | cons s rest => exact mergeInto_fontsSeparated rest s

/-- C6 counterexample: for the line of four spaces, the indent level is
1 but the residual is the whole line — no leading whitespace is removed,
contradicting the claim that exactly `indentLevel * 4` width units are
stripped. -/
theorem C6_counterexample_whitespace_line :
    (splitIndent (chars "    ")).1 = 1
      ∧ (splitIndent (chars "    ")).2 = chars "    "
      ∧ ¬ leadingWidth (splitIndent (chars "    ")).2
          = leadingWidth (chars "    ") - 4 * (splitIndent (chars "    ")).1 := by
  decide

/-- C6 (amended): the indent level is `⌊width/4⌋` of the leading
whitespace width (spaces 1, tabs 4), so equal-width prefixes give equal
levels; the residual drops the shortest character prefix whose width
reaches `indentLevel * 4` — a tab straddling the boundary is removed
whole, and a line in which no position reaches the boundary (an
all-whitespace line whose width is an exact multiple of 4) is returned
unchanged. -/
theorem C6_indent_level_and_residual (l1 l2 line : List Char)
    (h : leadingWidth l1 = leadingWidth l2) :
    (splitIndent line).1 = leadingWidth line / 4
      ∧ (splitIndent l1).1 = (splitIndent l2).1
      ∧ (splitIndent line).2 = line.drop (cutChars line)
      ∧ splitIndent (chars " \tx") = (1, chars "x")
      ∧ splitIndent (chars "    ") = (1, chars "    ") := by
  refine ⟨splitIndent_fst line, ?_, splitIndent_snd_eq_drop_cutChars line, by decide, by decide⟩
  rw [splitIndent_fst l1, splitIndent_fst l2, h]

theorem C6_indent_level_and_residual_witness :
    leadingWidth (chars "    ") = leadingWidth (chars "\t")
      ∧ (splitIndent (chars "    ")).1 = (splitIndent (chars "\t")).1 :=
  ⟨by decide, (C6_indent_level_and_residual (chars "    ") (chars "\t") [] (by decide)).2.1⟩

/-- C7: the parsing stage is a total function — for every already
decoded input text it produces a well-formed Document with exactly one
line record per source line — and unrecognized or unsafe inline token
kinds degrade to literal plain text (dropped entirely when they carry no
text). -/
theorem C7_parsing_total_and_degrading (tok : Tokenizer)
    (content filePath convertedAt : List Char) (f : FontStyle) (s : List Char) :
    (parseMarkdownContent tok content filePath convertedAt).lines.length
        = (normalizeAndSplitLines content).length
      ∧ convertTokensToSegments (.cons (.other (some s)) .nil) f
          = [{ text := decodeHtmlEntities s, font := some f }]
      ∧ convertTokensToSegments (.cons (.other none) .nil) f = []
      ∧ convertTokensToSegments (.cons (.html s) .nil) f
          = [{ text := decodeHtmlEntities s, font := some f }] :=
  ⟨processLines_length tok (normalizeAndSplitLines content) ⟨false, []⟩, rfl, rfl, rfl⟩

/-- C8 counterexample: parsing the same text at two different wall-clock
readings yields Documents that differ (in `metadata.convertedAt`), so
two runs do not agree on every field. -/
theorem C8_counterexample_timestamp :
    parseMarkdownContent plainTextTokenizer [] (chars "a.md") (chars "t1")
      ≠ parseMarkdownContent plainTextTokenizer [] (chars "a.md") (chars "t2") := by
  decide

/-- C8 (amended): parsing is deterministic up to the conversion
timestamp — two parses of the same text agree on the whole `lines`
sequence and on every metadata field except `convertedAt`, which records
the wall clock at conversion time. -/
theorem C8_parse_deterministic_up_to_timestamp (tok : Tokenizer)
    (content filePath t1 t2 : List Char) :
    (parseMarkdownContent tok content filePath t1).lines
        = (parseMarkdownContent tok content filePath t2).lines
      ∧ (parseMarkdownContent tok content filePath t1).metadata.fileName
        = (parseMarkdownContent tok content filePath t2).metadata.fileName
      ∧ (parseMarkdownContent tok content filePath t1).metadata.filePath
        = (parseMarkdownContent tok content filePath t2).metadata.filePath
      ∧ (parseMarkdownContent tok content filePath t1).metadata.totalLines
        = (parseMarkdownContent tok content filePath t2).metadata.totalLines :=
  ⟨rfl, rfl, rfl, rfl⟩

/-- C9 counterexample: the writer never probes for collisions or uses
the requested base name — the sheet name is always derived from the file
stem and the current time, so it changes with the clock even though no
collision exists, while the claimed scheme would return the requested
name unchanged. -/
theorem C9_counterexample_sheet_name :
    codeSheetName (chars "document.md") 1111 ≠ codeSheetName (chars "document.md") 2222
      ∧ codeSheetName (chars "document.md") 1234 = chars "MD_document_1234"
      ∧ specSheetName [] (chars "Markdown") 1234 = chars "Markdown" := by
  decide

/-- C9 (amended): the sheet name is always `MD_` + file stem + `_` +
the last four digits of the epoch-millisecond clock, truncated to 31
characters: it is at most 31 characters long, starts with `MD_`, and
depends on the clock only through those last four digits; no ` (k)`
collision probing exists. -/
theorem C9_sheet_name_scheme (fileName : List Char) (timeMs : Nat) :
    (codeSheetName fileName timeMs).length ≤ 31
      ∧ (codeSheetName fileName timeMs).take 3 = chars "MD_"
      ∧ ∀ t2, lastSlice 4 (natChars timeMs) = lastSlice 4 (natChars t2) →
          codeSheetName fileName timeMs = codeSheetName fileName t2 := by
  refine ⟨?_, rfl, ?_⟩
  · rw [codeSheetName]
    simp [List.length_take]
  · intro t2 h
    rw [codeSheetName, codeSheetName, h]

theorem C9_sheet_name_scheme_witness :
    lastSlice 4 (natChars 1234) = lastSlice 4 (natChars 91234)
      ∧ codeSheetName (chars "document.md") 1234 = codeSheetName (chars "document.md") 91234 :=
  ⟨by decide, (C9_sheet_name_scheme (chars "document.md") 1234).2.2 91234 (by decide)⟩

/-- For an ordered list line, `parseLine` writes the incremented
per-level counter back into the mapping. -/
theorem parseLine_snd_of_ordered (tok : Tokenizer) (line : List Char) (lvl : Nat)
    (strip : List Char) (inCode : Bool) (cnt : List (Nat × Nat))
    (h1 : determineLineType (trimStart line) inCode = .listItem)
    (h2 : (orderedMatchLen (trimStart line)).isSome = true) :
    (parseLine tok line lvl strip inCode cnt).2
      = counterSet cnt lvl (lookupCounter cnt lvl + 1) := by
  simp only [parseLine]
  rw [if_pos ⟨h1, h2⟩]

/-- C5: an ordered item at indent level L is numbered with the running
counter for L (initialized to 1 on first use, incremented per item at
that level), and the entire counter mapping is cleared whenever a line
is classified as anything other than a list item — so the sequence
`1. a`, `2. b`, a paragraph, `1. c` renders ordinals 1, 2, then 1 (not
3), and the rendered ordinal overrides the source ordinal. -/
theorem C5_ordered_list_renumbering (tok : Tokenizer) :
    (∀ (st : ParserState) (line : List Char),
        (processStep tok st line).1.lineType ≠ .listItem →
          (processStep tok st line).2.counter = [])
      ∧ (∀ (st : ParserState) (line : List Char),
          (processStep tok st line).1.lineType = .listItem →
            (orderedMatchLen (trimStart line)).isSome = true →
              lookupCounter (processStep tok st line).2.counter (splitIndent line).1
                = lookupCounter st.counter (splitIndent line).1 + 1)
      ∧ (parseMarkdownContent plainTextTokenizer (chars "1. a\n2. b\nx\n1. c")
            (chars "t.md") (chars "T")).lines.map (fun dl => dl.plainText)
          = [chars "1. a", chars "2. b", chars "x", chars "1. c"]
      ∧ (parseMarkdownContent plainTextTokenizer (chars "1. a\n5. b")
            (chars "t.md") (chars "T")).lines.map (fun dl => dl.plainText)
          = [chars "1. a", chars "2. b"] := by
  refine ⟨?_, ?_, by decide, by decide⟩
  · intro st line h
    simp only [processStep] at h ⊢
    rw [if_pos h]
  · intro st line h1 h2
    have hlt : determineLineType (trimStart line) (fenceToggle st.inCode line) = .listItem := h1
    have hlt2 : (parseLine tok line (splitIndent line).1 (splitIndent line).2
        (fenceToggle st.inCode line) st.counter).1.lineType = .listItem := h1
    simp only [processStep]
    rw [if_neg (by simp [hlt2])]
    rw [parseLine_snd_of_ordered tok line (splitIndent line).1 (splitIndent line).2
      (fenceToggle st.inCode line) st.counter hlt h2]
    exact lookupCounter_counterSet st.counter (splitIndent line).1
      (lookupCounter st.counter (splitIndent line).1 + 1)

theorem C5_ordered_list_renumbering_witness :
    ((processStep plainTextTokenizer ⟨false, [(0, 7)]⟩ (chars "x")).1.lineType ≠ .listItem
        ∧ (processStep plainTextTokenizer ⟨false, [(0, 7)]⟩ (chars "x")).2.counter = [])
      ∧ ((processStep plainTextTokenizer ⟨false, []⟩ (chars "1. a")).1.lineType = .listItem
        ∧ (orderedMatchLen (trimStart (chars "1. a"))).isSome = true
        ∧ lookupCounter (processStep plainTextTokenizer ⟨false, []⟩ (chars "1. a")).2.counter
            (splitIndent (chars "1. a")).1
          = lookupCounter (⟨false, []⟩ : ParserState).counter (splitIndent (chars "1. a")).1
              + 1) :=
  ⟨⟨by decide, (C5_ordered_list_renumbering plainTextTokenizer).1 ⟨false, [(0, 7)]⟩
      (chars "x") (by decide)⟩,
   ⟨by decide, by decide, (C5_ordered_list_renumbering plainTextTokenizer).2.1 ⟨false, []⟩
      (chars "1. a") (by decide) (by decide)⟩⟩

/-- C4: for the three-line input "```js" / "code" / "```" the lines are
tagged CodeBlock, Paragraph, CodeBlock; the middle line is a single run
with the fixed code font and code colour and is not inline-parsed (this
holds for every tokenizer); the fence flag is false again after the
closing fence; and any line whose indent residual starts with a triple
backtick flips the fence state, whatever its current value. -/
theorem C4_code_fence_behaviour (tok : Tokenizer) :
    ((parseMarkdownContent tok (chars "```js\ncode\n```") (chars "t.md") (chars "T")).lines.map
        (fun dl => dl.lineType)) = [.codeBlock, .paragraph, .codeBlock]
      ∧ ((parseMarkdownContent tok (chars "```js\ncode\n```") (chars "t.md")
            (chars "T")).lines.getD 1 defaultDocumentLine).richText
          = [{ text := chars "code"
               font := some { color := some codeColor, name := some codeFontName } }]
      ∧ finalParserState tok (normalizeAndSplitLines (chars "```js\ncode\n```")) ⟨false, []⟩
          = ⟨false, []⟩
      ∧ ∀ (line : List Char) (st : ParserState),
          tripleBacktick.isPrefixOf (splitIndent line).2 = true →
            (processStep tok st line).2.inCode = !st.inCode := by
  refine ⟨rfl, rfl, rfl, ?_⟩
  intro line st h
  show fenceToggle st.inCode line = !st.inCode
  rw [fenceToggle, if_pos (trimStart_fence_of_residual line h)]

theorem C4_code_fence_behaviour_witness :
    tripleBacktick.isPrefixOf (splitIndent (chars "```")).2 = true
      ∧ (processStep plainTextTokenizer ⟨false, []⟩ (chars "```")).2.inCode = !false :=
  ⟨by decide, (C4_code_fence_behaviour plainTextTokenizer).2.2.2 (chars "```")
    ⟨false, []⟩ (by decide)⟩

/-- C10: a Quote line is the inline-formatted content with the `> `
marker stripped and the fixed label `引用：` prepended (for every
tokenizer), so its plain text starts with the label; a Table line is the
single run `表：` + the verbatim content; a horizontal rule renders as
the fixed run of thirty dashes. -/
theorem C10_fixed_label_texts (tok : Tokenizer) (line : List Char)
    (fm : FormatInfo) (inCode : Bool) :
    generateRichTextSegments tok line .quote fm inCode
        = (convertTokensToSegments (tok (chars "引用：" ++ stripLineMarker line .quote)) {}).map
            (fun seg => applyLineFormatting seg .quote fm inCode)
      ∧ (parseMarkdownContent plainTextTokenizer (chars "> hello") (chars "t.md")
            (chars "T")).lines.map (fun dl => dl.plainText)
          = [chars "引用：hello"]
      ∧ (parseMarkdownContent plainTextTokenizer (chars "| a | b |") (chars "t.md")
            (chars "T")).lines.map (fun dl => dl.richText)
          = [[{ text := chars "表：| a | b |" }]]
      ∧ (parseMarkdownContent plainTextTokenizer (chars "---") (chars "t.md")
            (chars "T")).lines.map (fun dl => dl.richText)
          = [[{ text := hrDashes }]]
      ∧ hrDashes = chars "------------------------------"
      ∧ hrDashes.length = 30 :=
  ⟨rfl, by decide, by decide, by decide, rfl, by decide⟩
